import Mathlib

/-!
Shallow embedding of the node health-check layer of `portal-api`:

* `src/services/node-checker-wrapper.ts` — `NodeCheckerWrapper.cacheNodes`,
  `NodeCheckerWrapper.filterNodes`, `NodeCheckerWrapper.performChallenge`
  (the challenge is modelled as a fire-and-forget event that is only counted);
* `src/services/chain-checker-new.ts` — `PocketChainChecker.check`;
* `src/services/sync-checker.ts` — `SyncChecker.consensusFilter`.

The Redis store is modelled as an association list from keys to values
paired with the TTL (in seconds) passed to `set(key, value, 'EX', ttl)`.
Values written by this code are either the sentinel string `'true'` (locks)
or `JSON.stringify` of an array of public-key strings (results); the
serialisation round-trip of string arrays is abstracted by storing the
array itself (`RVal.strList`).  `JSON.parse` applied to a non-array value
is modelled as yielding the empty list.

External collaborators that are not under `src/` (the `NodeChecker` prober
of `node-checker.ts`, the `crypto` sha256 hash, `hashBlockchainNodes` of
`utils/helpers.ts`, `removeNodeFromSession` of `utils/cache.ts` and the
`MAX_RELAYS_ERROR` constant of `utils/constants.ts`) are modelled from the
spec, as parameters or as explicitly documented definitions.
-/

/-- A service node (`Node` of pocket-js): its identity key for all
caching and locking is `publicKey`. -/
structure Node where
  publicKey : String
  serviceURL : String
  serviceDomain : String
deriving DecidableEq

/-- The `Check` union type of `node-checker.ts` usage sites:
the string literals `'chain-check'` and `'sync-check'`. -/
inductive Check where
  | chainCheck
  | syncCheck
deriving DecidableEq

/-- The string value of a `Check` member. -/
def Check.str : Check → String
  | .chainCheck => "chain-check"
  | .syncCheck => "sync-check"

/-- A value held by the cache/lock store: a plain string or a
JSON array of strings (kept unserialised, see the file comment). -/
inductive RVal where
  | str (s : String)
  | strList (l : List String)
deriving DecidableEq

/-- The cache/lock store: key, value and the TTL (seconds) given at write
time.  The most recent write of a key comes first. -/
abbrev Store := List (String × RVal × Nat)

/-- `redis.get(key)` together with the TTL the entry was written with. -/
def redisGetEntry : Store → String → Option (RVal × Nat)
  | [], _ => none
  | (k, v, t) :: rest, key => if k = key then some (v, t) else redisGetEntry rest key

/-- `redis.get(key)`: the value at `key`, if present. -/
def redisGet (s : Store) (key : String) : Option RVal :=
  (redisGetEntry s key).map (fun e => e.1)

/-- Remove every entry of a key (helper of `redisSet`). -/
def removeKey : Store → String → Store
  | [], _ => []
  | (k, v, t) :: rest, key =>
      if k = key then removeKey rest key else (k, v, t) :: removeKey rest key

/-- `redis.set(key, value, 'EX', ttl)`: overwrite the key. -/
def redisSet (s : Store) (key : String) (v : RVal) (ttl : Nat) : Store :=
  (key, v, ttl) :: removeKey s key

/-- JavaScript truthiness of a `redis.get` result: `null` and the empty
string are falsy, any other value read back by this code is truthy. -/
def jsTruthy : Option RVal → Bool
  | none => false
  | some (.str s) => !(s = "")
  | some (.strList _) => true

/-- `JSON.parse` of a cached value, as used on result entries: the stored
string array, or `[]` when the value is not an array. -/
def parsedStrList : Option RVal → List String
  | some (.strList l) => l
  | _ => []

/-- `Array.prototype.includes` on an array of strings. -/
def jsIncludes (l : List String) (x : String) : Bool :=
  l.any (fun y => y = x)

/-- Modelled from the spec: the sentinel error message signalling that a
node exceeded its maximum relay allowance (`MAX_RELAYS_ERROR` of
`src/utils/constants.ts`, which is not under `src/`).  Only identity
comparison with this constant is used, so its exact text is immaterial. -/
def MAX_RELAYS_ERROR : String := "MAX_RELAYS_ERROR"

/-- Modelled from the spec: `removeNodeFromSession` of `src/utils/cache.ts`
(not under `src/`).  Per the spec's key-format table (§6) the session's
node-allowance entry, under the key `session-` + sessionKey, holds a JSON
array of REMOVED public keys, and the repository's chain-checker test
(`unnamed/part_001`) observes that entry growing from `[]` to one element
after a max-relays failure: removal APPENDS the failed node's public key
to the removed list.  Per §5 removal is monotonic and idempotent
(appending an already-recorded key is a no-op) and the entry's externally
managed TTL is kept.  A missing or non-array entry is left untouched. -/
def removeNodeFromSession (s : Store) (sessionKey publicKey : String) : Store :=
  let key := "session-" ++ sessionKey
  match redisGetEntry s key with
  | some (.strList l, ttl) =>
      redisSet s key
        (.strList (if jsIncludes l publicKey then l else l ++ [publicKey])) ttl
  | _ => s

/-- The `response` field of a `NodeCheckResponse`: the relay payload, or an
`Error` object (`response instanceof Error`).  For an `Error` object the
model keeps both its `message` property and its `JSON.stringify` image
(the code uses both). -/
inductive JsResponse where
  | payload (s : String)
  | jsError (message : String) (stringified : String)
deriving DecidableEq

/-- The `NodeCheckResponse<T>` of `node-checker.ts` (not under `src/`),
as consumed by `filterNodes`: the check result, the success flag computed
by the prober's success predicate, and the raw response.  The prober
(`NodeChecker.chain` / spec §2 "Node Prober") is given a node and returns
the typed result for that node, so the response's node is the probed node
and is carried as the pairing in `filterNodes`' input. -/
structure NodeCheckResponse (α : Type) where
  result : α
  success : Bool
  response : JsResponse
deriving DecidableEq

/-- One element of `Promise.allSettled` over the node probes: rejected with
a (string) reason, or fulfilled with a `NodeCheckResponse`. -/
inductive Settled (α : Type) where
  | rejected (reason : String)
  | fulfilled (value : NodeCheckResponse α)
deriving DecidableEq

/-- A settled probe that the error branch of `filterNodes` handles:
rejected, or fulfilled with `response instanceof Error`. -/
def Settled.failed : Settled α → Bool
  | .rejected _ => true
  | .fulfilled v =>
      match v.response with
      | .jsError _ _ => true
      | .payload _ => false

/-- The request-scoped fields that `filterNodes` copies into each metric. -/
structure CheckCtx where
  sessionKey : String
  origin : String
  blockchainID : String
  requestID : String
  applicationID : String
  applicationPublicKey : String
  relayStart : Nat × Nat
deriving DecidableEq

/-- The `metricLog` object handed to `MetricsRecorder.recordMetric`. -/
structure MetricLog where
  requestID : String
  applicationID : String
  applicationPublicKey : String
  blockchainID : String
  serviceNode : String
  relayStart : Nat × Nat
  result : Nat
  delivered : Bool
  fallback : Bool
  method : String
  error : String
  origin : String
  sessionKey : String
  bytes : Nat
deriving DecidableEq

/-- The initial error values of the failure branch of `filterNodes`:
`errorMsg` as first assigned (used for the `MAX_RELAYS_ERROR` comparison)
and the final `errorMsg` after the `typeof error === 'object'`
re-assignment to `JSON.stringify(error)` (used in the metric).  A rejected
promise carries a string reason, so it is left as is; a fulfilled `Error`
response is an object, so its stringified image replaces its message. -/
def failureMsgs : Settled α → String × String
  | .rejected reason => (reason, reason)
  | .fulfilled v =>
      match v.response with
      | .jsError message stringified => (message, stringified)
      | .payload s => (s, s)

/-- The `switch (checkType)` computing `metricLog.bytes` on a failure:
`Buffer.byteLength('WRONG CHAIN', 'utf8')` for a chain check, and
`Buffer.byteLength(errorMsg || 'SYNC-CHECK', 'utf8')` for a sync check. -/
def failureBytes (checkType : Check) (errorMsg : String) : Nat :=
  match checkType with
  | .chainCheck => "WRONG CHAIN".utf8ByteSize
  | .syncCheck => (if errorMsg = "" then "SYNC-CHECK" else errorMsg).utf8ByteSize

/-- The metric recorded for one failed probe. -/
def failureMetric (checkType : Check) (ctx : CheckCtx) (node : Node)
    (errorMsg : String) : MetricLog :=
  { requestID := ctx.requestID
    applicationID := ctx.applicationID
    applicationPublicKey := ctx.applicationPublicKey
    blockchainID := ctx.blockchainID
    serviceNode := node.publicKey
    relayStart := ctx.relayStart
    result := 500
    delivered := false
    fallback := false
    method := checkType.str
    error := errorMsg
    origin := ctx.origin
    sessionKey := ctx.sessionKey
    bytes := failureBytes checkType errorMsg }

/-- The store after the failure branch of one `filterNodes` iteration:
when the first error message equals `MAX_RELAYS_ERROR` the node's public
key is removed from the session's allowance entry, otherwise the store is
untouched. -/
def failureStore (ctx : CheckCtx) (node : Node) (settled : Settled α)
    (store : Store) : Store :=
  if (failureMsgs settled).1 = MAX_RELAYS_ERROR then
    removeNodeFromSession store ctx.sessionKey node.publicKey
  else store

/-- `NodeCheckerWrapper.filterNodes`: walks the settled probe results
(paired index-wise with the probed nodes, `node = nodes[idx]`), on a
failure removes an over-allowance node from the session entry and records
one failure metric, on a fulfilled non-error response keeps the response
exactly when its `success` flag is set.  Returns the kept
(node, response) pairs in input order, the final store, and the recorded
metrics in order. -/
def filterNodes (checkType : Check) (ctx : CheckCtx)
    (pairs : List (Node × Settled α)) (store : Store) :
    List (Node × NodeCheckResponse α) × Store × List MetricLog :=
  match pairs with
  | [] => ([], store, [])
  | (node, settled) :: rest =>
    if settled.failed then
      let store1 := failureStore ctx node settled store
      let metric := failureMetric checkType ctx node (failureMsgs settled).2
      let out := filterNodes checkType ctx rest store1
      (out.1, out.2.1, metric :: out.2.2)
    else
      match settled with
      | .rejected _ =>
          -- unreachable: a rejected settled result is failed
          filterNodes checkType ctx rest store
      | .fulfilled v =>
          let out := filterNodes checkType ctx rest store
          if v.success then ((node, v) :: out.1, out.2.1, out.2.2)
          else (out.1, out.2.1, out.2.2)

/-- `NodeCheckerWrapper.cacheNodes`: if the result entry is cached, return
the input nodes whose public key is in the cached list (in input order);
otherwise, if the lock key is held, return the full input node set;
otherwise write the lock (value `'true'`, TTL 60s) and return the empty
list, signalling the caller to run a fresh probing round. -/
def cacheNodes (nodes : List Node) (cacheKey : String) (store : Store) :
    List Node × Store :=
  let cached := redisGet store cacheKey
  if jsTruthy cached then
    (nodes.filter (fun n => jsIncludes (parsedStrList cached) n.publicKey), store)
  else if jsTruthy (redisGet store ("lock-" ++ cacheKey)) then
    (nodes, store)
  else
    ([], redisSet store ("lock-" ++ cacheKey) (.str "true") 60)

/-- The `ChainCheck` result type of `node-checker.ts` (not under `src/`):
the chain identifier reported by the node. -/
structure ChainCheck where
  chainID : Int
deriving DecidableEq

/-- The observable effects of one `PocketChainChecker.check` invocation:
the returned node list, the final store, the metrics recorded, the number
of consensus-challenge relays fired (`performChallenge` invocations), and
the number of individual node probes issued. -/
structure ChainCheckEff where
  nodes : List Node
  store : Store
  metrics : List MetricLog
  challenges : Nat
  probes : Nat
deriving DecidableEq

namespace PocketChainChecker

/-- `PocketChainChecker.check`.  `hashBlockchainNodes` (of
`src/utils/helpers.ts`, not under `src/`) is an abstract deterministic
hash of the blockchain identifier and the session's nodes; `probe` models
the settled outcome of `nodeChecker.chain(node, data, blockchainID,
pocketAAT, chainID)` for each node (the payload, AAT and expected chain id
are folded into it).  On a fresh round every node is probed concurrently,
the survivors of `filterNodes` are written back under the session cache
key (TTL 600s when non-empty, 30s when empty) and a consensus challenge is
fired when strictly fewer nodes survived than were given. -/
def check (hashBlockchainNodes : String → List Node → String)
    (probe : Node → Settled ChainCheck) (ctx : CheckCtx)
    (sessionNodes nodes : List Node) (store : Store) : ChainCheckEff :=
  let sessionHash := hashBlockchainNodes ctx.blockchainID sessionNodes
  let checkedNodesKey := "chain-check-" ++ sessionHash
  let cacheOut := cacheNodes nodes checkedNodesKey store
  if cacheOut.1.length > 0 then
    { nodes := cacheOut.1, store := cacheOut.2, metrics := [],
      challenges := 0, probes := 0 }
  else
    let nodeChainChecks := nodes.map (fun n => (n, probe n))
    let filtered := filterNodes .chainCheck ctx nodeChainChecks cacheOut.2
    let checkedNodes := filtered.1.map (fun p => p.1)
    let checkedNodesList := checkedNodes.map (fun n => n.publicKey)
    let store3 := redisSet filtered.2.1 checkedNodesKey (.strList checkedNodesList)
      (if checkedNodes.length > 0 then 600 else 30)
    { nodes := checkedNodes, store := store3, metrics := filtered.2.2,
      challenges := if checkedNodes.length < nodes.length then 1 else 0,
      probes := nodes.length }

end PocketChainChecker

/-- Lexicographic comparison of two character sequences, the order that
JavaScript's `<`/`>` induces on strings (UTF-16 code-unit order, which
agrees with code-point order on the hex public keys compared here). -/
def charListLe : List Char → List Char → Bool
  | [], _ => true
  | _ :: _, [] => false
  | a :: as, b :: bs =>
      if a < b then true
      else if b < a then false
      else charListLe as bs

/-- The comparator key order of `sync-checker.ts` line 20: node `a` does
not come after node `b` under
`(a, b) => a.publicKey > b.publicKey ? 1 : b.publicKey > a.publicKey ? -1 : 0`. -/
def pkLe (a b : Node) : Bool :=
  charListLe a.publicKey.data b.publicKey.data

/-- One step of the stable ascending insertion by `publicKey`: the new
element goes before the first element whose key is not smaller.  Any
stable sort with the three-way comparator above produces this ordering,
so the JavaScript in-place `Array.prototype.sort` of `sync-checker.ts` is
modelled by this insertion sort. -/
def insertByPublicKey (n : Node) : List Node → List Node
  | [] => [n]
  | m :: rest =>
      if pkLe n m then n :: m :: rest
      else m :: insertByPublicKey n rest

/-- `nodes.sort((a, b) => a.publicKey > b.publicKey ? 1 : (b.publicKey >
a.publicKey ? -1 : 0))` of `sync-checker.ts`, line 20.  The JavaScript
sort mutates the caller's array in place; the model computes the sorted
list and uses it for every subsequent access to `nodes`. -/
def sortByPublicKey (nodes : List Node) : List Node :=
  match nodes with
  | [] => []
  | n :: rest => insertByPublicKey n (sortByPublicKey rest)

/-- `JSON.stringify` of one node under the replacer
`(k, v) => k != 'publicKey' ? v : undefined`: the `publicKey` field is
omitted, the remaining fields appear in declaration order. -/
def nodeJsonNoPublicKey (n : Node) : String :=
  "\x7b\"serviceURL\":\"" ++ n.serviceURL ++ "\",\"serviceDomain\":\""
    ++ n.serviceDomain ++ "\"\x7d"

/-- `JSON.stringify` of the sorted node array under the publicKey-dropping
replacer (the hashed payload of the sync-check cache key). -/
def stringifyNodesNoPublicKey (nodes : List Node) : String :=
  "[" ++ String.intercalate "," (nodes.map nodeJsonNoPublicKey) ++ "]"

namespace SyncChecker

/-- `SyncChecker.consensusFilter`.  `sha256hex` abstracts
`crypto.createHash('sha256').update(payload).digest('hex')` (the `crypto`
library is an external collaborator).  The input array is first sorted in
place by `publicKey`; the cache key is the blockchain identifier, `-`, and
the hash of the sorted array serialised without the `publicKey` field.  A
cached entry is answered by filtering the (sorted) nodes against the
cached public-key list; a held lock answers with the full (sorted) node
set; otherwise the lock is written (TTL 10s), every node is marked synced
with no probe at all (the height comparison is commented out in the
source), and the full public-key list is cached with TTL 300s.  Returns
the surviving nodes and the final store. -/
def consensusFilter (sha256hex : String → String) (nodes : List Node)
    (blockchain : String) (store : Store) : List Node × Store :=
  let sorted := sortByPublicKey nodes
  let syncedNodesKey :=
    blockchain ++ "-" ++ sha256hex (stringifyNodesNoPublicKey sorted)
  let syncedNodesCached := redisGet store syncedNodesKey
  if jsTruthy syncedNodesCached then
    (sorted.filter (fun n => jsIncludes (parsedStrList syncedNodesCached) n.publicKey),
      store)
  else if jsTruthy (redisGet store ("lock-" ++ syncedNodesKey)) then
    (sorted, store)
  else
    let store1 := redisSet store ("lock-" ++ syncedNodesKey) (.str "true") 10
    let syncedNodesList := sorted.map (fun n => n.publicKey)
    let store2 := redisSet store1 syncedNodesKey (.strList syncedNodesList) 300
    (sorted, store2)

end SyncChecker

/-! Concrete sample data used by the counterexamples and witnesses. -/

/-- Sample node with public key `a`. -/
def nodeA : Node := { publicKey := "a", serviceURL := "https://a", serviceDomain := "a.net" }

/-- Sample node with public key `b`. -/
def nodeB : Node := { publicKey := "b", serviceURL := "https://b", serviceDomain := "b.net" }

/-- Sample node with public key `c`. -/
def nodeC : Node := { publicKey := "c", serviceURL := "https://c", serviceDomain := "c.net" }

/-- A session-hash function fixing the hash to `H` (sample instance of the
abstract `hashBlockchainNodes`). -/
def hashH : String → List Node → String := fun _ _ => "H"

/-- A string-hash function fixing the digest to `S` (sample instance of
the abstract sha256). -/
def shaS : String → String := fun _ => "S"

/-- Sample request context. -/
def ctx0 : CheckCtx :=
  { sessionKey := "sk", origin := "og", blockchainID := "0021",
    requestID := "rid", applicationID := "app", applicationPublicKey := "apk",
    relayStart := (0, 0) }

/-- A probe whose relay always succeeds and passes the chain check. -/
def probePass : Node → Settled ChainCheck := fun _ =>
  .fulfilled { result := { chainID := 100 }, success := true, response := .payload "ok" }

/-- A probe whose relay always succeeds but fails the chain check
(mismatched chain identifier). -/
def probeWrongChain : Node → Settled ChainCheck := fun _ =>
  .fulfilled { result := { chainID := 200 }, success := false, response := .payload "ok" }

/-- A probe that is always rejected with reason `boom`. -/
def probeReject : Node → Settled ChainCheck := fun _ => .rejected "boom"

/-- A probe that passes the chain check only for the node with public key
`a` and fails the check (without error) for every other node. -/
def probeOnlyA : Node → Settled ChainCheck := fun n =>
  .fulfilled { result := { chainID := 100 }, success := n.publicKey == "a",
               response := .payload "ok" }

/-- A probe whose relay resolves with an `Error` response carrying the
max-relays sentinel message (its `JSON.stringify` image is `\x7b\x7d`). -/
def probeMaxRelays : Node → Settled ChainCheck := fun _ =>
  .fulfilled { result := { chainID := 100 }, success := false,
               response := .jsError MAX_RELAYS_ERROR "\x7b\x7d" }

/-- A probe whose relay resolves with an `Error` response carrying an
unrelated error message. -/
def probeOtherError : Node → Settled ChainCheck := fun _ =>
  .fulfilled { result := { chainID := 100 }, success := false,
               response := .jsError "connection refused" "\x7b\x7d" }

/-! Supporting lemmas about the store and the embedded operations. -/

theorem redisGetEntry_set_self (s : Store) (k : String) (v : RVal) (t : Nat) :
    redisGetEntry (redisSet s k v t) k = some (v, t) := by
  simp [redisSet, redisGetEntry]

theorem redisGetEntry_removeKey (s : Store) (k k' : String) (h : k' ≠ k) :
    redisGetEntry (removeKey s k) k' = redisGetEntry s k' := by
  induction s with
  | nil => rfl
  | cons e rest ih =>
    obtain ⟨ek, ev, et⟩ := e
    by_cases hek : ek = k
    · rw [show removeKey ((ek, ev, et) :: rest) k = removeKey rest k from by
        simp [removeKey, hek]]
      rw [ih]
      have hne : ¬ ek = k' := fun hh => h (hh ▸ hek)
      rw [show redisGetEntry ((ek, ev, et) :: rest) k' = redisGetEntry rest k' from by
        simp [redisGetEntry, hne]]
    · rw [show removeKey ((ek, ev, et) :: rest) k = (ek, ev, et) :: removeKey rest k from by
        simp [removeKey, hek]]
      by_cases hek' : ek = k'
      · simp [redisGetEntry, hek']
      · simp [redisGetEntry, hek', ih]

theorem redisGetEntry_set_ne (s : Store) (k k' : String) (v : RVal) (t : Nat)
    (h : k' ≠ k) :
    redisGetEntry (redisSet s k v t) k' = redisGetEntry s k' := by
  have hkk : ¬ k = k' := fun hh => h hh.symm
  simp [redisSet, redisGetEntry, hkk, redisGetEntry_removeKey s k k' h]

theorem redisGet_set_self (s : Store) (k : String) (v : RVal) (t : Nat) :
    redisGet (redisSet s k v t) k = some v := by
  simp [redisGet, redisGetEntry_set_self]

theorem redisGet_set_ne (s : Store) (k k' : String) (v : RVal) (t : Nat)
    (h : k' ≠ k) : redisGet (redisSet s k v t) k' = redisGet s k' := by
  simp [redisGet, redisGetEntry_set_ne s k k' v t h]

theorem jsIncludes_iff (l : List String) (x : String) :
    jsIncludes l x = true ↔ x ∈ l := by
  simp [jsIncludes, List.any_eq_true]

theorem charListLe_total (a b : List Char) :
    charListLe a b = true ∨ charListLe b a = true := by
  induction a generalizing b with
  | nil => exact Or.inl rfl
  | cons x xs ih =>
    cases b with
    | nil => exact Or.inr rfl
    | cons y ys =>
      by_cases hxy : x < y
      · left
        simp [charListLe, hxy]
      · by_cases hyx : y < x
        · right
          simp [charListLe, hyx]
        · rcases ih ys with h | h
          · left
            simp [charListLe, hxy, hyx, h]
          · right
            simp [charListLe, hxy, hyx, h]

theorem charListLe_trans (a b c : List Char) (h1 : charListLe a b = true)
    (h2 : charListLe b c = true) : charListLe a c = true := by
  induction a generalizing b c with
  | nil => rfl
  | cons x xs ih =>
    cases b with
    | nil => simp [charListLe] at h1
    | cons y ys =>
      cases c with
      | nil => simp [charListLe] at h2
      | cons z zs =>
        by_cases hxy : x < y
        · by_cases hyz : y < z
          · simp [charListLe, lt_trans hxy hyz]
          · by_cases hzy : z < y
            · simp [charListLe, hyz, hzy] at h2
            · have hyzeq : y = z := le_antisymm (le_of_not_lt hzy) (le_of_not_lt hyz)
              simp [charListLe, hyzeq ▸ hxy]
        · by_cases hyx : y < x
          · simp [charListLe, hxy, hyx] at h1
          · have hxyeq : x = y := le_antisymm (le_of_not_lt hyx) (le_of_not_lt hxy)
            have h1r : charListLe xs ys = true := by
              simpa [charListLe, hxy, hyx] using h1
            by_cases hyz : y < z
            · simp [charListLe, hxyeq ▸ hyz]
            · by_cases hzy : z < y
              · simp [charListLe, hyz, hzy] at h2
              · have h2r : charListLe ys zs = true := by
                  simpa [charListLe, hyz, hzy] using h2
                have hxz : ¬ x < z := hxyeq ▸ hyz
                have hzx : ¬ z < x := hxyeq ▸ hzy
                simp [charListLe, hxz, hzx, ih ys zs h1r h2r]

theorem pkLe_total (a b : Node) : pkLe a b = true ∨ pkLe b a = true :=
  charListLe_total a.publicKey.data b.publicKey.data

theorem pkLe_trans (a b c : Node) (h1 : pkLe a b = true)
    (h2 : pkLe b c = true) : pkLe a c = true :=
  charListLe_trans a.publicKey.data b.publicKey.data c.publicKey.data h1 h2

theorem insertByPublicKey_perm (n : Node) (l : List Node) :
    (insertByPublicKey n l).Perm (n :: l) := by
  induction l with
  | nil => simp [insertByPublicKey]
  | cons m rest ih =>
    by_cases hle : pkLe n m = true
    · simp [insertByPublicKey, hle]
    · simp only [insertByPublicKey, hle, if_false, Bool.false_eq_true]
      exact (List.Perm.cons m ih).trans (List.Perm.swap n m rest)

theorem sortByPublicKey_perm (l : List Node) : (sortByPublicKey l).Perm l := by
  induction l with
  | nil => rfl
  | cons n rest ih =>
    exact (insertByPublicKey_perm n (sortByPublicKey rest)).trans (List.Perm.cons n ih)

theorem mem_insertByPublicKey {x n : Node} {l : List Node}
    (h : x ∈ insertByPublicKey n l) : x = n ∨ x ∈ l := by
  induction l with
  | nil => simpa [insertByPublicKey] using h
  | cons m rest ih =>
    by_cases hle : pkLe n m = true
    · simpa [insertByPublicKey, hle] using h
    · simp only [insertByPublicKey, hle, if_false, Bool.false_eq_true,
        List.mem_cons] at h
      rcases h with h | h
      · exact Or.inr (by simp [h])
      · rcases ih h with h' | h'
        · exact Or.inl h'
        · exact Or.inr (by simp [h'])

theorem pairwise_insertByPublicKey (n : Node) (l : List Node)
    (h : List.Pairwise (fun a b : Node => pkLe a b = true) l) :
    List.Pairwise (fun a b : Node => pkLe a b = true)
      (insertByPublicKey n l) := by
  induction l with
  | nil => simp [insertByPublicKey]
  | cons m rest ih =>
    rcases List.pairwise_cons.mp h with ⟨hm, hrest⟩
    by_cases hle : pkLe n m = true
    · simp only [insertByPublicKey, hle, if_true]
      refine List.pairwise_cons.mpr ⟨?_, h⟩
      intro x hx
      rcases List.mem_cons.mp hx with hx | hx
      · exact hx ▸ hle
      · exact pkLe_trans n m x hle (hm x hx)
    · simp only [insertByPublicKey, hle, if_false, Bool.false_eq_true]
      refine List.pairwise_cons.mpr ⟨?_, ih hrest⟩
      intro x hx
      rcases mem_insertByPublicKey hx with hx | hx
      · exact hx ▸ (pkLe_total n m).resolve_left hle
      · exact hm x hx

theorem pairwise_sortByPublicKey (l : List Node) :
    List.Pairwise (fun a b : Node => pkLe a b = true)
      (sortByPublicKey l) := by
  induction l with
  | nil => simp [sortByPublicKey]
  | cons n rest ih => exact pairwise_insertByPublicKey n (sortByPublicKey rest) ih

theorem filterNodes_cons_failed {α : Type} (ck : Check) (ctx : CheckCtx)
    (node : Node) (settled : Settled α) (rest : List (Node × Settled α))
    (store : Store) (h : settled.failed = true) :
    filterNodes ck ctx ((node, settled) :: rest) store =
      ((filterNodes ck ctx rest (failureStore ctx node settled store)).1,
       (filterNodes ck ctx rest (failureStore ctx node settled store)).2.1,
       failureMetric ck ctx node (failureMsgs settled).2 ::
         (filterNodes ck ctx rest (failureStore ctx node settled store)).2.2) := by
  simp only [filterNodes, h, if_true]

theorem filterNodes_cons_ok {α : Type} (ck : Check) (ctx : CheckCtx)
    (node : Node) (v : NodeCheckResponse α) (rest : List (Node × Settled α))
    (store : Store) (h : (Settled.fulfilled v).failed = false) :
    filterNodes ck ctx ((node, Settled.fulfilled v) :: rest) store =
      if v.success then
        ((node, v) :: (filterNodes ck ctx rest store).1,
         (filterNodes ck ctx rest store).2.1,
         (filterNodes ck ctx rest store).2.2)
      else
        ((filterNodes ck ctx rest store).1,
         (filterNodes ck ctx rest store).2.1,
         (filterNodes ck ctx rest store).2.2) := by
  simp only [filterNodes, h, if_false, Bool.false_eq_true]

theorem filterNodes_survivors_sublist {α : Type} (ck : Check) (ctx : CheckCtx)
    (pairs : List (Node × Settled α)) (store : Store) :
    ((filterNodes ck ctx pairs store).1.map (fun p => p.1)).Sublist
      (pairs.map (fun p => p.1)) := by
  induction pairs generalizing store with
  | nil => simp [filterNodes]
  | cons p rest ih =>
    obtain ⟨node, settled⟩ := p
    by_cases hf : settled.failed = true
    · rw [filterNodes_cons_failed ck ctx node settled rest store hf]
      exact List.Sublist.cons _ (ih _)
    · cases settled with
      | rejected r => simp [Settled.failed] at hf
      | fulfilled v =>
        rw [filterNodes_cons_ok ck ctx node v rest store (by simpa using hf)]
        by_cases hs : v.success = true
        · simp only [hs, if_true, List.map_cons]
          exact List.Sublist.cons₂ _ (ih _)
        · simp only [hs, if_false, Bool.false_eq_true]
          exact List.Sublist.cons _ (ih _)

theorem filterNodes_metrics_length {α : Type} (ck : Check) (ctx : CheckCtx)
    (pairs : List (Node × Settled α)) (store : Store) :
    (filterNodes ck ctx pairs store).2.2.length =
      (pairs.filter (fun p => p.2.failed)).length := by
  induction pairs generalizing store with
  | nil => simp [filterNodes]
  | cons p rest ih =>
    obtain ⟨node, settled⟩ := p
    by_cases hf : settled.failed = true
    · rw [filterNodes_cons_failed ck ctx node settled rest store hf]
      simp [List.filter_cons, hf, ih]
    · cases settled with
      | rejected r => simp [Settled.failed] at hf
      | fulfilled v =>
        rw [filterNodes_cons_ok ck ctx node v rest store (by simpa using hf)]
        by_cases hs : v.success = true
        · simp only [hs, if_true]
          simp [List.filter_cons, hf, ih]
        · simp only [hs, if_false, Bool.false_eq_true]
          simp [List.filter_cons, hf, ih]

theorem filterNodes_metrics_bytes {α : Type} (ck : Check) (ctx : CheckCtx)
    (pairs : List (Node × Settled α)) (store : Store) :
    ∀ m ∈ (filterNodes ck ctx pairs store).2.2,
      m.bytes = failureBytes ck m.error ∧ m.method = ck.str := by
  induction pairs generalizing store with
  | nil => simp [filterNodes]
  | cons p rest ih =>
    obtain ⟨node, settled⟩ := p
    by_cases hf : settled.failed = true
    · rw [filterNodes_cons_failed ck ctx node settled rest store hf]
      intro m hm
      rcases List.mem_cons.mp hm with hm | hm
      · subst hm
        exact ⟨rfl, rfl⟩
      · exact ih _ m hm
    · cases settled with
      | rejected r => simp [Settled.failed] at hf
      | fulfilled v =>
        rw [filterNodes_cons_ok ck ctx node v rest store (by simpa using hf)]
        by_cases hs : v.success = true
        · simp only [hs, if_true]
          exact ih store
        · simp only [hs, if_false, Bool.false_eq_true]
          exact ih store

theorem cacheNodes_fst_sublist (nodes : List Node) (cacheKey : String)
    (store : Store) : ((cacheNodes nodes cacheKey store).1).Sublist nodes := by
  unfold cacheNodes
  by_cases hc : jsTruthy (redisGet store cacheKey) = true
  · simp only [hc, if_true]
    exact List.filter_sublist nodes
  · simp only [hc, if_false, Bool.false_eq_true]
    by_cases hl : jsTruthy (redisGet store ("lock-" ++ cacheKey)) = true
    · simp only [hl, if_true]
      exact List.Sublist.refl nodes
    · simp only [hl, if_false, Bool.false_eq_true]
      exact List.nil_sublist nodes

theorem filter_includes_of_sublist (r l : List Node) (hsub : r.Sublist l)
    (hnd : (l.map (fun n => n.publicKey)).Nodup) :
    l.filter (fun n => jsIncludes (r.map (fun n => n.publicKey)) n.publicKey) = r := by
  induction hsub with
  | slnil => rfl
  | @cons r' l' a h ih =>
    have hnd' : (l'.map (fun n => n.publicKey)).Nodup := by
      simpa using (List.nodup_cons.mp (by simpa using hnd)).2
    have hnotmem : a.publicKey ∉ l'.map (fun n => n.publicKey) :=
      (List.nodup_cons.mp (by simpa using hnd)).1
    have hpa : jsIncludes (r'.map (fun n => n.publicKey)) a.publicKey = false := by
      rw [Bool.eq_false_iff]
      intro hinc
      exact hnotmem ((List.Sublist.map (fun n => n.publicKey) h).mem
        ((jsIncludes_iff _ _).mp hinc))
    rw [List.filter_cons_of_neg (by simp [hpa]), ih hnd']
  | @cons₂ r' l' a h ih =>
    have hnd' : (l'.map (fun n => n.publicKey)).Nodup := by
      simpa using (List.nodup_cons.mp (by simpa using hnd)).2
    have hnotmem : a.publicKey ∉ l'.map (fun n => n.publicKey) :=
      (List.nodup_cons.mp (by simpa using hnd)).1
    rw [List.filter_cons_of_pos (by rw [jsIncludes_iff]; simp)]
    congr 1
    rw [show l'.filter (fun n => jsIncludes ((a :: r').map (fun n => n.publicKey)) n.publicKey)
        = l'.filter (fun n => jsIncludes (r'.map (fun n => n.publicKey)) n.publicKey) from ?_]
    · exact ih hnd'
    · apply List.filter_congr
      intro x hx
      have hxa : x.publicKey ≠ a.publicKey := by
        intro hh
        exact hnotmem (hh ▸ List.mem_map_of_mem (fun n => n.publicKey) hx)
      simp [jsIncludes, Ne.symm hxa]

/-- The session's node-allowance list as read back from the store
(the parsed value of the `session-` + sessionKey entry). -/
def allowanceList (s : Store) (sessionKey : String) : List String :=
  parsedStrList (redisGet s ("session-" ++ sessionKey))

theorem mem_allowanceList_remove_self (s : Store) (sk pk : String)
    (h : ∃ l ttl, redisGetEntry s ("session-" ++ sk) =
      some (RVal.strList l, ttl)) :
    pk ∈ allowanceList (removeNodeFromSession s sk pk) sk := by
  obtain ⟨l, ttl, hget⟩ := h
  unfold allowanceList removeNodeFromSession
  simp only [hget]
  rw [redisGet_set_self]
  simp only [parsedStrList]
  by_cases hc : jsIncludes l pk = true
  · rw [if_pos hc]
    exact (jsIncludes_iff l pk).mp hc
  · rw [if_neg hc]
    exact List.mem_append_right l (List.mem_singleton_self pk)

theorem mem_allowanceList_remove (s : Store) (sk pk pk' : String)
    (h : pk ∈ allowanceList s sk) :
    pk ∈ allowanceList (removeNodeFromSession s sk pk') sk := by
  unfold allowanceList removeNodeFromSession
  cases hget : redisGetEntry s ("session-" ++ sk) with
  | none =>
    simp only [hget]
    simpa [allowanceList] using h
  | some e =>
    obtain ⟨v, ttl⟩ := e
    cases v with
    | str s0 =>
      simp only [hget]
      simpa [allowanceList] using h
    | strList l =>
      have hl : pk ∈ l := by
        simpa [allowanceList, redisGet, hget, parsedStrList] using h
      simp only [hget]
      rw [redisGet_set_self]
      simp only [parsedStrList]
      by_cases hc : jsIncludes l pk' = true
      · rw [if_pos hc]
        exact hl
      · rw [if_neg hc]
        exact List.mem_append_left _ hl

theorem allowanceEntry_strList_remove (s : Store) (sk pk : String)
    (h : ∃ l ttl, redisGetEntry s ("session-" ++ sk) =
      some (RVal.strList l, ttl)) :
    ∃ l ttl, redisGetEntry (removeNodeFromSession s sk pk)
      ("session-" ++ sk) = some (RVal.strList l, ttl) := by
  obtain ⟨l, ttl, hget⟩ := h
  unfold removeNodeFromSession
  simp only [hget]
  exact ⟨if jsIncludes l pk then l else l ++ [pk], ttl,
    redisGetEntry_set_self s _ _ ttl⟩

theorem filterNodes_preserves_allowance_mem {α : Type} (ck : Check)
    (ctx : CheckCtx) (pairs : List (Node × Settled α)) (store : Store)
    (pk : String) (h : pk ∈ allowanceList store ctx.sessionKey) :
    pk ∈ allowanceList (filterNodes ck ctx pairs store).2.1 ctx.sessionKey := by
  induction pairs generalizing store with
  | nil => simpa [filterNodes] using h
  | cons p rest ih =>
    obtain ⟨node, settled⟩ := p
    by_cases hf : settled.failed = true
    · rw [filterNodes_cons_failed ck ctx node settled rest store hf]
      apply ih
      unfold failureStore
      by_cases hm : (failureMsgs settled).1 = MAX_RELAYS_ERROR
      · rw [if_pos hm]
        exact mem_allowanceList_remove store ctx.sessionKey pk node.publicKey h
      · rwa [if_neg hm]
    · cases settled with
      | rejected r => simp [Settled.failed] at hf
      | fulfilled v =>
        rw [filterNodes_cons_ok ck ctx node v rest store (by simpa using hf)]
        by_cases hs : v.success = true
        · simp only [hs, if_true]
          exact ih store h
        · simp only [hs, if_false, Bool.false_eq_true]
          exact ih store h

theorem filterNodes_maxRelays_recorded {α : Type} (ck : Check)
    (ctx : CheckCtx) (pairs : List (Node × Settled α)) (store : Store)
    (node : Node) (settled : Settled α)
    (hentry : ∃ l ttl, redisGetEntry store ("session-" ++ ctx.sessionKey) =
      some (RVal.strList l, ttl))
    (hmem : (node, settled) ∈ pairs) (hf : settled.failed = true)
    (hmax : (failureMsgs settled).1 = MAX_RELAYS_ERROR) :
    node.publicKey ∈
      allowanceList (filterNodes ck ctx pairs store).2.1 ctx.sessionKey := by
  induction pairs generalizing store with
  | nil => cases hmem
  | cons p rest ih =>
    obtain ⟨pn, ps⟩ := p
    rcases List.mem_cons.mp hmem with heq | hmem'
    · injection heq with hn hs
      subst hn
      subst hs
      rw [filterNodes_cons_failed ck ctx node settled rest store hf]
      apply filterNodes_preserves_allowance_mem
      unfold failureStore
      rw [if_pos hmax]
      exact mem_allowanceList_remove_self store ctx.sessionKey node.publicKey hentry
    · by_cases hpf : ps.failed = true
      · rw [filterNodes_cons_failed ck ctx pn ps rest store hpf]
        apply ih _ ?_ hmem'
        unfold failureStore
        by_cases hm : (failureMsgs ps).1 = MAX_RELAYS_ERROR
        · rw [if_pos hm]
          exact allowanceEntry_strList_remove store ctx.sessionKey pn.publicKey hentry
        · rw [if_neg hm]
          exact hentry
      · cases ps with
        | rejected r => simp [Settled.failed] at hpf
        | fulfilled v =>
          rw [filterNodes_cons_ok ck ctx pn v rest store (by simpa using hpf)]
          by_cases hsv : v.success = true
          · simp only [hsv, if_true]
            exact ih store hentry hmem'
          · simp only [hsv, if_false, Bool.false_eq_true]
            exact ih store hentry hmem'

theorem filterNodes_failed_not_survivor {α : Type} (ck : Check) (ctx : CheckCtx)
    (pairs : List (Node × Settled α)) (store : Store) (node : Node)
    (settled : Settled α)
    (hnd : (pairs.map (fun p => p.1.publicKey)).Nodup)
    (hmem : (node, settled) ∈ pairs) (hf : settled.failed = true) :
    node.publicKey ∉
      (filterNodes ck ctx pairs store).1.map (fun p => p.1.publicKey) := by
  induction pairs generalizing store with
  | nil => cases hmem
  | cons p rest ih =>
    obtain ⟨pn, ps⟩ := p
    have hnd1 : (pn.publicKey :: rest.map (fun p => p.1.publicKey)).Nodup := by
      simpa only [List.map_cons] using hnd
    have hnd2 := List.nodup_cons.mp hnd1
    rcases List.mem_cons.mp hmem with heq | hmem'
    · injection heq with hn hs
      subst hn
      subst hs
      rw [filterNodes_cons_failed ck ctx node settled rest store hf]
      intro hin
      have hsub :
          ((filterNodes ck ctx rest (failureStore ctx node settled store)).1.map
            (fun p => p.1.publicKey)).Sublist (rest.map (fun p => p.1.publicKey)) := by
        have h1 := (filterNodes_survivors_sublist ck ctx rest
          (failureStore ctx node settled store)).map (fun n => n.publicKey)
        simpa [List.map_map, Function.comp_def] using h1
      exact hnd2.1 (hsub.mem hin)
    · have hmempk : node.publicKey ∈ rest.map (fun p => p.1.publicKey) := by
        exact List.mem_map_of_mem (fun p => p.1.publicKey) hmem'
      by_cases hpf : ps.failed = true
      · rw [filterNodes_cons_failed ck ctx pn ps rest store hpf]
        exact ih _ hnd2.2 hmem'
      · cases ps with
        | rejected r => simp [Settled.failed] at hpf
        | fulfilled v =>
          rw [filterNodes_cons_ok ck ctx pn v rest store (by simpa using hpf)]
          by_cases hsv : v.success = true
          · simp only [hsv, if_true, List.map_cons]
            intro hin
            rcases List.mem_cons.mp hin with hpk | hin'
            · exact hnd2.1 (hpk ▸ hmempk)
            · exact ih store hnd2.2 hmem' hin'
          · simp only [hsv, if_false, Bool.false_eq_true]
            exact ih store hnd2.2 hmem'

theorem filterNodes_store_unchanged {α : Type} (ck : Check) (ctx : CheckCtx)
    (pairs : List (Node × Settled α)) (store : Store)
    (h : ∀ p ∈ pairs,
      ¬(p.2.failed = true ∧ (failureMsgs p.2).1 = MAX_RELAYS_ERROR)) :
    (filterNodes ck ctx pairs store).2.1 = store := by
  induction pairs generalizing store with
  | nil => rfl
  | cons p rest ih =>
    obtain ⟨pn, ps⟩ := p
    have hrest : ∀ p ∈ rest,
        ¬(p.2.failed = true ∧ (failureMsgs p.2).1 = MAX_RELAYS_ERROR) :=
      fun q hq => h q (List.mem_cons_of_mem _ hq)
    by_cases hpf : ps.failed = true
    · rw [filterNodes_cons_failed ck ctx pn ps rest store hpf]
      have hnm : ¬ (failureMsgs ps).1 = MAX_RELAYS_ERROR := by
        intro hmx
        exact h (pn, ps) (List.mem_cons_self _ _) ⟨hpf, hmx⟩
      rw [show failureStore ctx pn ps store = store from by
        unfold failureStore
        rw [if_neg hnm]]
      exact ih store hrest
    · cases ps with
      | rejected r => simp [Settled.failed] at hpf
      | fulfilled v =>
        rw [filterNodes_cons_ok ck ctx pn v rest store (by simpa using hpf)]
        by_cases hsv : v.success = true
        · simp only [hsv, if_true]
          exact ih store hrest
        · simp only [hsv, if_false, Bool.false_eq_true]
          exact ih store hrest

theorem check_fresh_eq (hash : String → List Node → String)
    (probe : Node → Settled ChainCheck) (ctx : CheckCtx)
    (sessionNodes nodes : List Node) (store : Store)
    (hfresh : (cacheNodes nodes
      ("chain-check-" ++ hash ctx.blockchainID sessionNodes) store).1 = []) :
    PocketChainChecker.check hash probe ctx sessionNodes nodes store =
      { nodes := (filterNodes Check.chainCheck ctx (nodes.map fun n => (n, probe n))
          (cacheNodes nodes ("chain-check-" ++ hash ctx.blockchainID sessionNodes)
            store).2).1.map (fun p => p.1),
        store := redisSet
          (filterNodes Check.chainCheck ctx (nodes.map fun n => (n, probe n))
            (cacheNodes nodes ("chain-check-" ++ hash ctx.blockchainID sessionNodes)
              store).2).2.1
          ("chain-check-" ++ hash ctx.blockchainID sessionNodes)
          (RVal.strList (((filterNodes Check.chainCheck ctx
            (nodes.map fun n => (n, probe n))
            (cacheNodes nodes ("chain-check-" ++ hash ctx.blockchainID sessionNodes)
              store).2).1.map (fun p => p.1)).map (fun n => n.publicKey)))
          (if ((filterNodes Check.chainCheck ctx (nodes.map fun n => (n, probe n))
            (cacheNodes nodes ("chain-check-" ++ hash ctx.blockchainID sessionNodes)
              store).2).1.map (fun p => p.1)).length > 0 then 600 else 30),
        metrics := (filterNodes Check.chainCheck ctx (nodes.map fun n => (n, probe n))
          (cacheNodes nodes ("chain-check-" ++ hash ctx.blockchainID sessionNodes)
            store).2).2.2,
        challenges := if ((filterNodes Check.chainCheck ctx
          (nodes.map fun n => (n, probe n))
          (cacheNodes nodes ("chain-check-" ++ hash ctx.blockchainID sessionNodes)
            store).2).1.map (fun p => p.1)).length < nodes.length then 1 else 0,
        probes := nodes.length } := by
  simp only [PocketChainChecker.check]
  rw [hfresh]
  simp

theorem check_cached_eq (hash : String → List Node → String)
    (probe : Node → Settled ChainCheck) (ctx : CheckCtx)
    (sessionNodes nodes : List Node) (store : Store)
    (hne : (cacheNodes nodes
      ("chain-check-" ++ hash ctx.blockchainID sessionNodes) store).1 ≠ []) :
    PocketChainChecker.check hash probe ctx sessionNodes nodes store =
      { nodes := (cacheNodes nodes
          ("chain-check-" ++ hash ctx.blockchainID sessionNodes) store).1,
        store := (cacheNodes nodes
          ("chain-check-" ++ hash ctx.blockchainID sessionNodes) store).2,
        metrics := [], challenges := 0, probes := 0 } := by
  simp only [PocketChainChecker.check]
  rw [if_pos (List.length_pos.mpr hne)]

theorem cacheNodes_fresh_eq (nodes : List Node) (cacheKey : String)
    (store : Store) (hc : jsTruthy (redisGet store cacheKey) = false)
    (hl : jsTruthy (redisGet store ("lock-" ++ cacheKey)) = false) :
    cacheNodes nodes cacheKey store =
      ([], redisSet store ("lock-" ++ cacheKey) (.str "true") 60) := by
  simp [cacheNodes, hc, hl]

theorem cacheNodes_hit_eq (nodes : List Node) (cacheKey : String)
    (store : Store) (hc : jsTruthy (redisGet store cacheKey) = true) :
    cacheNodes nodes cacheKey store =
      (nodes.filter (fun n =>
        jsIncludes (parsedStrList (redisGet store cacheKey)) n.publicKey), store) := by
  simp [cacheNodes, hc]

theorem cacheNodes_locked_eq (nodes : List Node) (cacheKey : String)
    (store : Store) (hc : jsTruthy (redisGet store cacheKey) = false)
    (hl : jsTruthy (redisGet store ("lock-" ++ cacheKey)) = true) :
    cacheNodes nodes cacheKey store = (nodes, store) := by
  simp [cacheNodes, hc, hl]

/-! Claim theorems. -/

/-- C1 counterexample: in a fresh probing round over the non-empty node
list `[nodeA]` in which the single node fails the chain check, the
surviving set is empty (not a non-empty strict subset), yet the code fires
the Consensus Challenge — refuting the claimed `0 < survivors` lower
bound of the iff. -/
theorem chainChecker_challenge_fires_with_zero_survivors :
    (PocketChainChecker.check hashH probeWrongChain ctx0 [nodeA] [nodeA] []).challenges = 1 ∧
    (PocketChainChecker.check hashH probeWrongChain ctx0 [nodeA] [nodeA] []).nodes.length = 0 ∧
    (PocketChainChecker.check hashH probeWrongChain ctx0 [nodeA] [nodeA] []).probes = 1 := by
  decide

/-- C1 (amended): in a chain-check invocation that performs a fresh
probing round (the cache helper handed back the empty list) over a
non-empty input node list, the Consensus Challenge is invoked exactly once
if and only if the surviving set is a strict subset of the input —
including the case of zero survivors. -/
theorem chainChecker_challenge_iff_strict_subset
    (hash : String → List Node → String) (probe : Node → Settled ChainCheck)
    (ctx : CheckCtx) (sessionNodes nodes : List Node) (store : Store)
    (hfresh : (cacheNodes nodes
      ("chain-check-" ++ hash ctx.blockchainID sessionNodes) store).1 = [])
    (hne : nodes ≠ []) :
    ((PocketChainChecker.check hash probe ctx sessionNodes nodes store).challenges = 1 ↔
      (PocketChainChecker.check hash probe ctx sessionNodes nodes store).nodes.length
        < nodes.length) ∧
    (PocketChainChecker.check hash probe ctx sessionNodes nodes store).challenges ≤ 1 := by
  simp only [PocketChainChecker.check]
  rw [hfresh]
  simp only [List.length_nil, gt_iff_lt, lt_self_iff_false, if_false]
  refine ⟨?_, ?_⟩ <;> · split <;> simp_all

/-- C1 witness: the amended theorem applied at a concrete fresh round over
`[nodeA, nodeB]` with only `nodeA` passing. -/
theorem chainChecker_challenge_iff_strict_subset_witness :
    ((PocketChainChecker.check hashH probeOnlyA ctx0 [nodeA, nodeB]
        [nodeA, nodeB] []).challenges = 1 ↔
      (PocketChainChecker.check hashH probeOnlyA ctx0 [nodeA, nodeB]
        [nodeA, nodeB] []).nodes.length < ([nodeA, nodeB] : List Node).length) ∧
    (PocketChainChecker.check hashH probeOnlyA ctx0 [nodeA, nodeB]
        [nodeA, nodeB] []).challenges ≤ 1 :=
  chainChecker_challenge_iff_strict_subset hashH probeOnlyA ctx0 [nodeA, nodeB]
    [nodeA, nodeB] [] (by decide) (by decide)

/-- C2 counterexample: one probed node whose outcome is a success yields
zero MetricRecords (the success path of `filterNodes` never calls
`recordMetric`), refuting "exactly one MetricRecord per node, whether the
outcome is a success or a failure". -/
theorem filterNodes_success_records_no_metric :
    (filterNodes Check.chainCheck ctx0 [(nodeA, probePass nodeA)] []).2.2 = [] ∧
    ([(nodeA, probePass nodeA)] : List (Node × Settled ChainCheck)).length = 1 := by
  decide

/-- C2 (amended): in every probing round exactly one MetricRecord is
forwarded per FAILED outcome (a rejection or an `Error` response), in
order, and none for fulfilled non-error outcomes (whether or not they pass
the success predicate); each recorded metric's byte count follows the
check kind — the byte length of the fixed sentinel `WRONG CHAIN` for a
chain-check failure, and the byte length of the record's error message
(with the `SYNC-CHECK` sentinel as fallback when that message is empty)
for a sync-check failure. -/
theorem filterNodes_one_metric_per_failure {α : Type} (ck : Check)
    (ctx : CheckCtx) (pairs : List (Node × Settled α)) (store : Store) :
    (filterNodes ck ctx pairs store).2.2.length =
      (pairs.filter (fun p => p.2.failed)).length ∧
    ∀ m ∈ (filterNodes ck ctx pairs store).2.2,
      m.bytes = failureBytes ck m.error ∧ m.method = ck.str :=
  ⟨filterNodes_metrics_length ck ctx pairs store,
   filterNodes_metrics_bytes ck ctx pairs store⟩

/-- C2 witness: the amended theorem applied to a concrete round with one
success, one rejection and one error response: exactly two metrics. -/
theorem filterNodes_one_metric_per_failure_witness :
    (filterNodes Check.chainCheck ctx0
      [(nodeA, probePass nodeA), (nodeB, probeReject nodeB),
       (nodeC, probeOtherError nodeC)] []).2.2.length =
      (([(nodeA, probePass nodeA), (nodeB, probeReject nodeB),
        (nodeC, probeOtherError nodeC)] :
          List (Node × Settled ChainCheck)).filter
        (fun p => p.2.failed)).length ∧
    ∀ m ∈ (filterNodes Check.chainCheck ctx0
      [(nodeA, probePass nodeA), (nodeB, probeReject nodeB),
       (nodeC, probeOtherError nodeC)] []).2.2,
      m.bytes = failureBytes Check.chainCheck m.error ∧
        m.method = Check.chainCheck.str :=
  filterNodes_one_metric_per_failure Check.chainCheck ctx0
    [(nodeA, probePass nodeA), (nodeB, probeReject nodeB),
     (nodeC, probeOtherError nodeC)] []

/-- C3 failing-input evaluation: with the cache entry for the computed key
present and holding the empty list (`JSON` value `[]`, the 30s empty
entry the checker itself writes), `PocketChainChecker.check` cannot
distinguish the authoritative empty cached subset from a cache miss: it
runs a full fresh probing round (one probe for the single input node,
without even re-acquiring the lock) and returns the fresh survivors
instead of the cached empty list. -/
theorem chainChecker_reprobes_on_cached_empty :
    (PocketChainChecker.check hashH probePass ctx0 [nodeA] [nodeA]
      [("chain-check-H", RVal.strList [], 30)]).probes = 1 ∧
    (PocketChainChecker.check hashH probePass ctx0 [nodeA] [nodeA]
      [("chain-check-H", RVal.strList [], 30)]).nodes = [nodeA] := by
  decide

/-- C4 counterexample: with a cache hit for the sorted pair
`[nodeB, nodeA]`, the sync filter returns `[nodeA, nodeB]` — the
public-key-sorted order — which is not a sublist of the caller's input
`[nodeB, nodeA]`, refuting order preservation for the sync filter. -/
theorem syncChecker_breaks_input_order :
    (SyncChecker.consensusFilter shaS [nodeB, nodeA] "bc"
      [("bc-S", RVal.strList ["a", "b"], 300)]).1 = [nodeA, nodeB] ∧
    ¬ (([nodeA, nodeB] : List Node).Sublist [nodeB, nodeA]) := by
  constructor
  · decide
  · intro h
    exact absurd (h.eq_of_length rfl) (by decide)

/-- C4 (amended): the chain filter's returned list is always a sublist of
the input node list (subset in the caller's relative order); the sync
filter's returned list is a sublist of the input sorted by public key — a
subset of the input node set, but enumerated in public-key order rather
than in the caller's original order. -/
theorem checker_survivors_subset_of_input :
    (∀ (hash : String → List Node → String)
      (probe : Node → Settled ChainCheck) (ctx : CheckCtx)
      (sessionNodes nodes : List Node) (store : Store),
      ((PocketChainChecker.check hash probe ctx sessionNodes
        nodes store).nodes).Sublist nodes) ∧
    (∀ (sha : String → String) (nodes : List Node) (bc : String) (store : Store),
      ((SyncChecker.consensusFilter sha nodes bc store).1).Sublist
        (sortByPublicKey nodes) ∧
      ∀ x ∈ (SyncChecker.consensusFilter sha nodes bc store).1, x ∈ nodes) := by
  constructor
  · intro hash probe ctx sessionNodes nodes store
    simp only [PocketChainChecker.check]
    by_cases hc : (cacheNodes nodes
        ("chain-check-" ++ hash ctx.blockchainID sessionNodes) store).1.length > 0
    · rw [if_pos hc]
      exact cacheNodes_fst_sublist nodes _ store
    · rw [if_neg hc]
      have h1 := (filterNodes_survivors_sublist Check.chainCheck ctx
        (nodes.map fun n => (n, probe n))
        (cacheNodes nodes
          ("chain-check-" ++ hash ctx.blockchainID sessionNodes) store).2)
      simpa [List.map_map, Function.comp_def] using h1
  · intro sha nodes bc store
    have hs : ((SyncChecker.consensusFilter sha nodes bc store).1).Sublist
        (sortByPublicKey nodes) := by
      simp only [SyncChecker.consensusFilter]
      by_cases hc : jsTruthy (redisGet store
          (bc ++ "-" ++ sha (stringifyNodesNoPublicKey (sortByPublicKey nodes)))) = true
      · simp only [hc, if_true]
        exact List.filter_sublist _
      · simp only [hc, if_false, Bool.false_eq_true]
        by_cases hl : jsTruthy (redisGet store ("lock-" ++
            (bc ++ "-" ++ sha (stringifyNodesNoPublicKey (sortByPublicKey nodes))))) = true
        · simp only [hl, if_true]
          exact List.Sublist.refl _
        · simp only [hl, if_false, Bool.false_eq_true]
          exact List.Sublist.refl _
    exact ⟨hs, fun x hx => (sortByPublicKey_perm nodes).subset (hs.subset hx)⟩

/-- C4 witness: the amended theorem applied at a concrete fresh chain
round and a concrete cached sync round. -/
theorem checker_survivors_subset_of_input_witness :
    ((PocketChainChecker.check hashH probeOnlyA ctx0 [nodeA, nodeB]
        [nodeA, nodeB] []).nodes).Sublist [nodeA, nodeB] ∧
    ((SyncChecker.consensusFilter shaS [nodeB, nodeA] "bc"
        [("bc-S", RVal.strList ["a", "b"], 300)]).1).Sublist
      (sortByPublicKey [nodeB, nodeA]) ∧
    nodeA ∈ (SyncChecker.consensusFilter shaS [nodeB, nodeA] "bc"
        [("bc-S", RVal.strList ["a", "b"], 300)]).1 := by
  have h := checker_survivors_subset_of_input
  refine ⟨h.1 hashH probeOnlyA ctx0 [nodeA, nodeB] [nodeA, nodeB] [], ?_, ?_⟩
  · exact (h.2 shaS [nodeB, nodeA] "bc" [("bc-S", RVal.strList ["a", "b"], 300)]).1
  · decide

theorem check_after_fresh_write (hash : String → List Node → String)
    (probe : Node → Settled ChainCheck) (ctx : CheckCtx)
    (sessionNodes nodes : List Node) (s2 : Store) (r1 : List Node) (t : Nat)
    (hsub : r1.Sublist nodes)
    (hnd : (nodes.map (fun n => n.publicKey)).Nodup) (hne : r1 ≠ []) :
    PocketChainChecker.check hash probe ctx sessionNodes nodes
      (redisSet s2 ("chain-check-" ++ hash ctx.blockchainID sessionNodes)
        (RVal.strList (r1.map (fun n => n.publicKey))) t) =
      { nodes := r1,
        store := redisSet s2 ("chain-check-" ++ hash ctx.blockchainID sessionNodes)
          (RVal.strList (r1.map (fun n => n.publicKey))) t,
        metrics := [], challenges := 0, probes := 0 } := by
  have hget : redisGet (redisSet s2
      ("chain-check-" ++ hash ctx.blockchainID sessionNodes)
      (RVal.strList (r1.map (fun n => n.publicKey))) t)
      ("chain-check-" ++ hash ctx.blockchainID sessionNodes) =
      some (RVal.strList (r1.map (fun n => n.publicKey))) :=
    redisGet_set_self s2 _ _ t
  have htr : jsTruthy (redisGet (redisSet s2
      ("chain-check-" ++ hash ctx.blockchainID sessionNodes)
      (RVal.strList (r1.map (fun n => n.publicKey))) t)
      ("chain-check-" ++ hash ctx.blockchainID sessionNodes)) = true := by
    rw [hget]
    rfl
  have hhit := cacheNodes_hit_eq nodes
    ("chain-check-" ++ hash ctx.blockchainID sessionNodes)
    (redisSet s2 ("chain-check-" ++ hash ctx.blockchainID sessionNodes)
      (RVal.strList (r1.map (fun n => n.publicKey))) t) htr
  rw [hget] at hhit
  simp only [parsedStrList] at hhit
  rw [filter_includes_of_sublist r1 nodes hsub hnd] at hhit
  have hne2 : (cacheNodes nodes
      ("chain-check-" ++ hash ctx.blockchainID sessionNodes)
      (redisSet s2 ("chain-check-" ++ hash ctx.blockchainID sessionNodes)
        (RVal.strList (r1.map (fun n => n.publicKey))) t)).1 ≠ [] := by
    rw [hhit]
    exact hne
  rw [check_cached_eq hash probe ctx sessionNodes nodes _ hne2, hhit]

/-- C5 counterexample: a session whose single node's probe is rejected.
The first call runs a probing round (1 probe) and caches the empty
survivor list; the second call — within any TTL window, since the empty
entry is present — cannot distinguish the cached empty list from a miss
and runs a second probing round (1 more probe), refuting "exactly one
probing round" for every session/node set. -/
theorem chainChecker_reprobes_after_allfail_round :
    (PocketChainChecker.check hashH probeReject ctx0 [nodeA] [nodeA] []).probes = 1 ∧
    (PocketChainChecker.check hashH probeReject ctx0 [nodeA] [nodeA]
      (PocketChainChecker.check hashH probeReject ctx0 [nodeA] [nodeA] []).store).probes
      = 1 := by
  decide

/-- C5 (amended): starting from a state with the session's cache entry and
lock both absent and with pairwise-distinct node public keys, the first
chain-filter call issues one probe per node; if its surviving list is
non-empty, the second call with the same session and node set (while the
written entry is present, i.e. within the 600s TTL window) is served
entirely from the cache: zero probes, zero metrics, zero challenges, the
same surviving list, and an unchanged store.  (When the surviving list is
empty the second call probes again, see the counterexample.) -/
theorem chainChecker_idempotent_within_ttl
    (hash : String → List Node → String) (probe : Node → Settled ChainCheck)
    (ctx : CheckCtx) (sessionNodes nodes : List Node) (store : Store)
    (hc : jsTruthy (redisGet store
      ("chain-check-" ++ hash ctx.blockchainID sessionNodes)) = false)
    (hl : jsTruthy (redisGet store
      ("lock-" ++ ("chain-check-" ++ hash ctx.blockchainID sessionNodes))) = false)
    (hnd : (nodes.map (fun n => n.publicKey)).Nodup) :
    (PocketChainChecker.check hash probe ctx sessionNodes nodes store).probes
      = nodes.length ∧
    ((PocketChainChecker.check hash probe ctx sessionNodes nodes store).nodes ≠ [] →
      PocketChainChecker.check hash probe ctx sessionNodes nodes
          (PocketChainChecker.check hash probe ctx sessionNodes nodes store).store =
        { nodes := (PocketChainChecker.check hash probe ctx
            sessionNodes nodes store).nodes,
          store := (PocketChainChecker.check hash probe ctx
            sessionNodes nodes store).store,
          metrics := [], challenges := 0, probes := 0 }) := by
  have hfresh : (cacheNodes nodes
      ("chain-check-" ++ hash ctx.blockchainID sessionNodes) store).1 = [] := by
    rw [cacheNodes_fresh_eq nodes _ store hc hl]
  have he1 := check_fresh_eq hash probe ctx sessionNodes nodes store hfresh
  constructor
  · rw [he1]
  · intro hne
    rw [he1] at hne ⊢
    dsimp only at hne ⊢
    have hsub : ((filterNodes Check.chainCheck ctx (nodes.map fun n => (n, probe n))
        (cacheNodes nodes ("chain-check-" ++ hash ctx.blockchainID sessionNodes)
          store).2).1.map (fun p => p.1)).Sublist nodes := by
      have h1 := filterNodes_survivors_sublist Check.chainCheck ctx
        (nodes.map fun n => (n, probe n))
        (cacheNodes nodes ("chain-check-" ++ hash ctx.blockchainID sessionNodes)
          store).2
      simpa [List.map_map, Function.comp_def] using h1
    exact check_after_fresh_write hash probe ctx sessionNodes nodes _ _ _
      hsub hnd hne

/-- C5 witness: the amended theorem at a concrete fresh round over
`[nodeA, nodeB]` with `nodeA` surviving. -/
theorem chainChecker_idempotent_within_ttl_witness :
    (PocketChainChecker.check hashH probeOnlyA ctx0 [nodeA, nodeB]
      [nodeA, nodeB] []).probes = ([nodeA, nodeB] : List Node).length ∧
    ((PocketChainChecker.check hashH probeOnlyA ctx0 [nodeA, nodeB]
        [nodeA, nodeB] []).nodes ≠ [] →
      PocketChainChecker.check hashH probeOnlyA ctx0 [nodeA, nodeB] [nodeA, nodeB]
          (PocketChainChecker.check hashH probeOnlyA ctx0 [nodeA, nodeB]
            [nodeA, nodeB] []).store =
        { nodes := (PocketChainChecker.check hashH probeOnlyA ctx0 [nodeA, nodeB]
            [nodeA, nodeB] []).nodes,
          store := (PocketChainChecker.check hashH probeOnlyA ctx0 [nodeA, nodeB]
            [nodeA, nodeB] []).store,
          metrics := [], challenges := 0, probes := 0 }) :=
  chainChecker_idempotent_within_ttl hashH probeOnlyA ctx0 [nodeA, nodeB]
    [nodeA, nodeB] [] (by decide) (by decide) (by decide)

/-- C6 counterexample: with an empty input node list, a held lock and no
cache entry, the chain filter does not fail open silently: the empty list
returned by the cache helper is indistinguishable from the fresh-round
signal, so the checker runs an (empty) round and writes a 30s empty cache
entry while another round is believed in flight — the claim's "writes
nothing to the store" fails. -/
theorem chainChecker_locked_empty_input_writes_store :
    (PocketChainChecker.check hashH probePass ctx0 [nodeA] []
      [("lock-chain-check-H", RVal.str "true", 60)]).store =
      [("chain-check-H", RVal.strList [], 30),
       ("lock-chain-check-H", RVal.str "true", 60)] ∧
    [("chain-check-H", RVal.strList [], 30),
       ("lock-chain-check-H", RVal.str "true", 60)] ≠
      ([("lock-chain-check-H", RVal.str "true", 60)] : Store) := by
  decide

/-- C6 (amended): lock fail-open holds for a NON-EMPTY input node list:
if the lock key is present (truthy) and the cache key absent, the chain
filter returns the entire unfiltered input list, issues no probe, records
no metric, fires no challenge and leaves the store untouched; the sync
filter does the same for every input list, returning every input node
(the caller's array, publicKey-sorted in place).  With an empty input the
chain filter instead runs an empty round and writes an empty cache entry
(see the counterexample). -/
theorem checker_lock_fail_open :
    (∀ (hash : String → List Node → String)
      (probe : Node → Settled ChainCheck) (ctx : CheckCtx)
      (sessionNodes nodes : List Node) (store : Store),
      jsTruthy (redisGet store
        ("chain-check-" ++ hash ctx.blockchainID sessionNodes)) = false →
      jsTruthy (redisGet store
        ("lock-" ++ ("chain-check-" ++ hash ctx.blockchainID sessionNodes))) = true →
      nodes ≠ [] →
      PocketChainChecker.check hash probe ctx sessionNodes nodes store =
        { nodes := nodes, store := store, metrics := [],
          challenges := 0, probes := 0 }) ∧
    (∀ (sha : String → String) (nodes : List Node) (bc : String) (store : Store),
      jsTruthy (redisGet store
        (bc ++ "-" ++ sha (stringifyNodesNoPublicKey (sortByPublicKey nodes)))) = false →
      jsTruthy (redisGet store ("lock-" ++
        (bc ++ "-" ++ sha (stringifyNodesNoPublicKey (sortByPublicKey nodes))))) = true →
      SyncChecker.consensusFilter sha nodes bc store =
        (sortByPublicKey nodes, store)) := by
  constructor
  · intro hash probe ctx sessionNodes nodes store hc hl hne
    have hlock := cacheNodes_locked_eq nodes
      ("chain-check-" ++ hash ctx.blockchainID sessionNodes) store hc hl
    have hne2 : (cacheNodes nodes
        ("chain-check-" ++ hash ctx.blockchainID sessionNodes) store).1 ≠ [] := by
      rw [hlock]
      exact hne
    rw [check_cached_eq hash probe ctx sessionNodes nodes store hne2, hlock]
  · intro sha nodes bc store hc hl
    simp only [SyncChecker.consensusFilter, hc, hl, if_false, if_true,
      Bool.false_eq_true]

/-- C6 witness: the amended theorem at a held lock with a non-empty chain
input and a sync input. -/
theorem checker_lock_fail_open_witness :
    PocketChainChecker.check hashH probePass ctx0 [nodeA] [nodeA, nodeB]
        [("lock-chain-check-H", RVal.str "true", 60)] =
      { nodes := [nodeA, nodeB],
        store := [("lock-chain-check-H", RVal.str "true", 60)], metrics := [],
        challenges := 0, probes := 0 } ∧
    SyncChecker.consensusFilter shaS [nodeB, nodeA] "bc"
        [("lock-bc-S", RVal.str "true", 10)] =
      (sortByPublicKey [nodeB, nodeA], [("lock-bc-S", RVal.str "true", 10)]) := by
  have h := checker_lock_fail_open
  exact ⟨h.1 hashH probePass ctx0 [nodeA] [nodeA, nodeB]
      [("lock-chain-check-H", RVal.str "true", 60)] (by decide) (by decide)
      (by decide),
    h.2 shaS [nodeB, nodeA] "bc" [("lock-bc-S", RVal.str "true", 10)]
      (by decide) (by decide)⟩

/-- C7: on a fresh sync round (cache and lock both absent) every input
node is treated as passing with no probe and no height comparison — the
returned list contains every input node (and nothing else: its length is
the input's length), and the cached entry written under the computed key
lists exactly the returned nodes' public keys, covering every input
node's public key. -/
theorem syncChecker_fresh_passes_all
    (sha : String → String) (nodes : List Node) (bc : String) (store : Store)
    (hc : jsTruthy (redisGet store
      (bc ++ "-" ++ sha (stringifyNodesNoPublicKey (sortByPublicKey nodes)))) = false)
    (hl : jsTruthy (redisGet store ("lock-" ++
      (bc ++ "-" ++ sha (stringifyNodesNoPublicKey (sortByPublicKey nodes))))) = false) :
    (∀ n ∈ nodes, n ∈ (SyncChecker.consensusFilter sha nodes bc store).1) ∧
    (SyncChecker.consensusFilter sha nodes bc store).1.length = nodes.length ∧
    redisGet (SyncChecker.consensusFilter sha nodes bc store).2
        (bc ++ "-" ++ sha (stringifyNodesNoPublicKey (sortByPublicKey nodes))) =
      some (RVal.strList
        ((SyncChecker.consensusFilter sha nodes bc store).1.map
          (fun n => n.publicKey))) ∧
    ∀ n ∈ nodes, n.publicKey ∈ parsedStrList
      (redisGet (SyncChecker.consensusFilter sha nodes bc store).2
        (bc ++ "-" ++ sha (stringifyNodesNoPublicKey (sortByPublicKey nodes)))) := by
  have hout : SyncChecker.consensusFilter sha nodes bc store =
      (sortByPublicKey nodes,
        redisSet
          (redisSet store ("lock-" ++
            (bc ++ "-" ++ sha (stringifyNodesNoPublicKey (sortByPublicKey nodes))))
            (.str "true") 10)
          (bc ++ "-" ++ sha (stringifyNodesNoPublicKey (sortByPublicKey nodes)))
          (.strList ((sortByPublicKey nodes).map (fun n => n.publicKey))) 300) := by
    simp only [SyncChecker.consensusFilter, hc, hl, if_false, Bool.false_eq_true]
  rw [hout]
  dsimp only
  have hmem : ∀ n ∈ nodes, n ∈ sortByPublicKey nodes := fun n hn =>
    ((sortByPublicKey_perm nodes).mem_iff).mpr hn
  refine ⟨hmem, (sortByPublicKey_perm nodes).length_eq, ?_, ?_⟩
  · rw [redisGet_set_self]
  · intro n hn
    rw [redisGet_set_self]
    simp only [parsedStrList]
    exact List.mem_map_of_mem (fun n => n.publicKey) (hmem n hn)

/-- C7 witness: the theorem at a concrete fresh round over the unsorted
pair `[nodeB, nodeA]` on the empty store. -/
theorem syncChecker_fresh_passes_all_witness :
    nodeB ∈ (SyncChecker.consensusFilter shaS [nodeB, nodeA] "bc" []).1 ∧
    (SyncChecker.consensusFilter shaS [nodeB, nodeA] "bc" []).1.length = 2 := by
  have h := syncChecker_fresh_passes_all shaS [nodeB, nodeA] "bc" []
    (by decide) (by decide)
  exact ⟨h.1 nodeB (by decide), h.2.1⟩

/-- C8: on a fresh sync round, the result entry is written under the key
formed of the blockchain identifier, a `-` separator, and the hash of the
node list sorted by publicKey serialised with the publicKey field excluded
(the sha256 digest being the abstract hash parameter), with a fixed TTL of
300 seconds; the lock entry is written under `lock-` plus the same key
with a TTL of 10 seconds. -/
theorem syncChecker_cache_key_and_ttl
    (sha : String → String) (nodes : List Node) (bc : String) (store : Store)
    (hc : jsTruthy (redisGet store
      (bc ++ "-" ++ sha (stringifyNodesNoPublicKey (sortByPublicKey nodes)))) = false)
    (hl : jsTruthy (redisGet store ("lock-" ++
      (bc ++ "-" ++ sha (stringifyNodesNoPublicKey (sortByPublicKey nodes))))) = false) :
    redisGetEntry (SyncChecker.consensusFilter sha nodes bc store).2
        (bc ++ "-" ++ sha (stringifyNodesNoPublicKey (sortByPublicKey nodes))) =
      some (RVal.strList ((sortByPublicKey nodes).map (fun n => n.publicKey)), 300) ∧
    redisGetEntry (SyncChecker.consensusFilter sha nodes bc store).2
        ("lock-" ++ (bc ++ "-" ++ sha (stringifyNodesNoPublicKey (sortByPublicKey nodes)))) =
      some (RVal.str "true", 10) := by
  have hout : SyncChecker.consensusFilter sha nodes bc store =
      (sortByPublicKey nodes,
        redisSet
          (redisSet store ("lock-" ++
            (bc ++ "-" ++ sha (stringifyNodesNoPublicKey (sortByPublicKey nodes))))
            (.str "true") 10)
          (bc ++ "-" ++ sha (stringifyNodesNoPublicKey (sortByPublicKey nodes)))
          (.strList ((sortByPublicKey nodes).map (fun n => n.publicKey))) 300) := by
    simp only [SyncChecker.consensusFilter, hc, hl, if_false, Bool.false_eq_true]
  rw [hout]
  dsimp only
  have hkne : "lock-" ++
      (bc ++ "-" ++ sha (stringifyNodesNoPublicKey (sortByPublicKey nodes))) ≠
      bc ++ "-" ++ sha (stringifyNodesNoPublicKey (sortByPublicKey nodes)) := by
    intro heq
    have hlen := congrArg String.length heq
    simp only [String.length_append] at hlen
    have h5 : ("lock-" : String).length = 5 := rfl
    rw [h5] at hlen
    omega
  refine ⟨redisGetEntry_set_self _ _ _ _, ?_⟩
  rw [redisGetEntry_set_ne _ _ _ _ _ hkne]
  exact redisGetEntry_set_self _ _ _ _

/-- C8 witness: the theorem at a concrete fresh round. -/
theorem syncChecker_cache_key_and_ttl_witness :
    redisGetEntry (SyncChecker.consensusFilter shaS [nodeB, nodeA] "bc" []).2
        ("bc" ++ "-" ++ shaS (stringifyNodesNoPublicKey (sortByPublicKey [nodeB, nodeA]))) =
      some (RVal.strList ((sortByPublicKey [nodeB, nodeA]).map (fun n => n.publicKey)), 300) ∧
    redisGetEntry (SyncChecker.consensusFilter shaS [nodeB, nodeA] "bc" []).2
        ("lock-" ++ ("bc" ++ "-" ++ shaS (stringifyNodesNoPublicKey (sortByPublicKey [nodeB, nodeA])))) =
      some (RVal.str "true", 10) :=
  syncChecker_cache_key_and_ttl shaS [nodeB, nodeA] "bc" [] (by decide) (by decide)

/-- C9 counterexample: mirroring the repository's chain-checker test, the
session's allowance entry is seeded with the empty array; after a round
whose single node fails with the max-relays message, a subsequent
independent read of the `session-` + sessionKey entry parses to `["a"]` —
the failed node's public key is PRESENT in (appended to) the entry, not
absent from it, refuting the claimed removal/absence. -/
theorem filterNodes_maxRelays_key_present_after_removal :
    allowanceList (filterNodes Check.chainCheck ctx0
      [(nodeA, probeMaxRelays nodeA)]
      [("session-sk", RVal.strList [], 500)]).2.1 ctx0.sessionKey = ["a"] ∧
    nodeA.publicKey ∈ allowanceList (filterNodes Check.chainCheck ctx0
      [(nodeA, probeMaxRelays nodeA)]
      [("session-sk", RVal.strList [], 500)]).2.1 ctx0.sessionKey := by
  decide

/-- C9 (amended): in a probing round over nodes with pairwise-distinct
public keys and an existing session allowance entry (a JSON array of
removed public keys under `session-` + sessionKey), a probed node whose
failure's error message equals the max-relays sentinel has its public key
RECORDED IN (appended to) that entry — so a subsequent independent read
shows the key present in the removed list and future rounds exclude the
node — and the node is absent from the round's surviving list; a round in
which no failure carries the max-relays message leaves the store — in
particular the allowance entry — completely unchanged. -/
theorem filterNodes_maxRelays_denylists_node {α : Type} (ck : Check)
    (ctx : CheckCtx) (pairs : List (Node × Settled α)) (store : Store)
    (node : Node) (settled : Settled α) :
    ((∃ l ttl, redisGetEntry store ("session-" ++ ctx.sessionKey) =
        some (RVal.strList l, ttl)) →
      (pairs.map (fun p => p.1.publicKey)).Nodup → (node, settled) ∈ pairs →
      settled.failed = true → (failureMsgs settled).1 = MAX_RELAYS_ERROR →
      node.publicKey ∈
        allowanceList (filterNodes ck ctx pairs store).2.1 ctx.sessionKey ∧
      node.publicKey ∉
        (filterNodes ck ctx pairs store).1.map (fun p => p.1.publicKey)) ∧
    ((∀ p ∈ pairs,
        ¬(p.2.failed = true ∧ (failureMsgs p.2).1 = MAX_RELAYS_ERROR)) →
      (filterNodes ck ctx pairs store).2.1 = store) :=
  ⟨fun hentry hnd hmem hf hmax =>
    ⟨filterNodes_maxRelays_recorded ck ctx pairs store node settled hentry
      hmem hf hmax,
     filterNodes_failed_not_survivor ck ctx pairs store node settled hnd hmem hf⟩,
   filterNodes_store_unchanged ck ctx pairs store⟩

/-- C9 witness: a concrete round whose first node fails with the
max-relays message (its key is appended to the allowance entry and it is
dropped from the surviving list) and a concrete round with only an
unrelated failure (the store is untouched). -/
theorem filterNodes_maxRelays_denylists_node_witness :
    (nodeA.publicKey ∈
      allowanceList (filterNodes Check.chainCheck ctx0
        [(nodeA, probeMaxRelays nodeA), (nodeB, probeOtherError nodeB)]
        [("session-sk", RVal.strList ["b"], 500)]).2.1 ctx0.sessionKey ∧
     nodeA.publicKey ∉
      (filterNodes Check.chainCheck ctx0
        [(nodeA, probeMaxRelays nodeA), (nodeB, probeOtherError nodeB)]
        [("session-sk", RVal.strList ["b"], 500)]).1.map
        (fun p => p.1.publicKey)) ∧
    (filterNodes Check.chainCheck ctx0 [(nodeB, probeOtherError nodeB)]
        [("session-sk", RVal.strList ["b"], 500)]).2.1 =
      [("session-sk", RVal.strList ["b"], 500)] := by
  refine ⟨(filterNodes_maxRelays_denylists_node Check.chainCheck ctx0
      [(nodeA, probeMaxRelays nodeA), (nodeB, probeOtherError nodeB)]
      [("session-sk", RVal.strList ["b"], 500)] nodeA
      (probeMaxRelays nodeA)).1 ⟨["b"], 500, rfl⟩ (by decide) (by decide)
      (by decide) (by decide),
    (filterNodes_maxRelays_denylists_node Check.chainCheck ctx0
      [(nodeB, probeOtherError nodeB)]
      [("session-sk", RVal.strList ["b"], 500)] nodeB
      (probeOtherError nodeB)).2 (by decide)⟩

/-- C10: the sync checker sorts the caller's node array in place by
publicKey before computing the cache key, so every return path enumerates
nodes in publicKey-comparator order (the returned list is pairwise
ordered), and a fresh round returns exactly the publicKey-sorted
permutation of the caller's input rather than the original order. -/
theorem syncChecker_sorts_in_place
    (sha : String → String) (nodes : List Node) (bc : String) (store : Store) :
    ((jsTruthy (redisGet store
        (bc ++ "-" ++ sha (stringifyNodesNoPublicKey (sortByPublicKey nodes)))) = false →
      jsTruthy (redisGet store ("lock-" ++
        (bc ++ "-" ++ sha (stringifyNodesNoPublicKey (sortByPublicKey nodes))))) = false →
      (SyncChecker.consensusFilter sha nodes bc store).1 = sortByPublicKey nodes)) ∧
    List.Pairwise (fun a b : Node => pkLe a b = true)
      (SyncChecker.consensusFilter sha nodes bc store).1 := by
  constructor
  · intro hc hl
    simp only [SyncChecker.consensusFilter, hc, hl, if_false, Bool.false_eq_true]
  · have hp := pairwise_sortByPublicKey nodes
    simp only [SyncChecker.consensusFilter]
    by_cases hc : jsTruthy (redisGet store
        (bc ++ "-" ++ sha (stringifyNodesNoPublicKey (sortByPublicKey nodes)))) = true
    · simp only [hc, if_true]
      exact List.Pairwise.sublist (List.filter_sublist _) hp
    · simp only [hc, if_false, Bool.false_eq_true]
      by_cases hl : jsTruthy (redisGet store ("lock-" ++
          (bc ++ "-" ++ sha (stringifyNodesNoPublicKey (sortByPublicKey nodes))))) = true
      · simp only [hl, if_true]
        exact hp
      · simp only [hl, if_false, Bool.false_eq_true]
        exact hp

/-- C10 witness: the theorem at a concrete fresh round whose input
`[nodeB, nodeA]` is not sorted; the returned list is the sorted
permutation, which differs from the caller's order. -/
theorem syncChecker_sorts_in_place_witness :
    (SyncChecker.consensusFilter shaS [nodeB, nodeA] "bc" []).1 =
      sortByPublicKey [nodeB, nodeA] ∧
    List.Pairwise (fun a b : Node => pkLe a b = true)
      (SyncChecker.consensusFilter shaS [nodeB, nodeA] "bc" []).1 ∧
    sortByPublicKey [nodeB, nodeA] ≠ [nodeB, nodeA] := by
  have h := syncChecker_sorts_in_place shaS [nodeB, nodeA] "bc" []
  exact ⟨h.1 (by decide) (by decide), h.2, by decide⟩
